import Mathlib

/-!
Shallow embedding of the bell repository's two batch pipelines: the zone
ingestion engine (`czds/czds_to_db.go`) and the active resolution engine
(the `query` package, `src/unnamed/part_000`), together with the relational
store described by `schema.sql`.

Abstractions used throughout: wall-clock time is a natural number threaded
explicitly; logging is dropped; each network DNS exchange (including its
retry-with-backoff loop, which the source collapses into a single success
or give-up outcome) is an oracle value supplied as a parameter; each SQL
statement is a transition on an explicit `DBState`.
-/

/-- `strings.TrimSuffix(s, ".")`: drop one trailing root-label separator
when present (part_000:72,89; czds_to_db.go:53,73). -/
def stripDot (s : String) : String :=
  if s.data.getLast? = some '.' then String.mk s.data.dropLast else s

/-- A row of the `domains` table (schema.sql:19-26). -/
structure DomainRow where
  domain_name : String
  tld : String
  nameservers : List String
  last_updated : Nat
  deriving DecidableEq

/-- A row of the `dns_records` table (schema.sql:29-37). -/
structure DNSRow where
  domain_id : Nat
  record_type : String
  record_data : String
  ttl : Nat
  source : String
  last_updated : Nat
  deriving DecidableEq

/-- The shared relational store: `domains` rows keyed by id in insertion
order, the append-oriented `dns_records` table, the singleton
`query_progress` row (schema.sql:69-79), and the next `SERIAL` id the
store will hand out for `domains.id`. -/
structure DBState where
  domains : List (Nat × DomainRow)
  dns_records : List DNSRow
  last_domain_id : Option Nat
  progress_updated_at : Nat
  next_domain_id : Nat
  deriving DecidableEq

namespace Query

/-- One answer resource record of a typed DNS response: its textual form
(`ans.String()`) and its header ttl (part_000:112-120). -/
structure Answer where
  text : String
  ttl : Nat
  deriving DecidableEq

/-- Outcome of one `backoff.Retry`-wrapped typed exchange against a
nameserver (part_000:103-111): either the retries were exhausted, or a
response with its answer section arrived. -/
inductive XchgResult where
  | fail
  | ok (answers : List Answer)
  deriving DecidableEq

/-- Outcome of the NS-discovery exchange (part_000:75-86).  Each answer is
`some target` when the answer asserts to `*dns.NS` (carrying its `Ns`
field, trailing dot included), `none` for any other answer type
(part_000:87-95). -/
inductive NSOutcome where
  | fail
  | ok (answers : List (Option String))
  deriving DecidableEq

/-- One record tuple as built at part_000:112-120 (the map literal). -/
structure RecordTuple where
  domain_id : Nat
  record_type : String
  record_data : String
  ttl : Nat
  source : String
  deriving DecidableEq

/-- Network events, used to state which queries a run issues. -/
inductive DNSEvent where
  | nsDiscovery
  | typedQuery (ns : String) (recordType : String)
  deriving DecidableEq

/-- The nameserver loop of `queryDNSRecords` (part_000:98-124): iterate the
candidate nameservers in order, skip a nameserver whose exchange fails
after retries, append every answer of a successful exchange to the
accumulator, and break as soon as the accumulator is non-empty.  Also
returns the list of queries issued, in order. -/
def queryLoop (domainID : Nat) (recordType : String) (tO : String → XchgResult)
    (acc : List RecordTuple) : List String → List RecordTuple × List DNSEvent
  | [] => (acc, [])
  | ns :: rest =>
    match tO ns with
    | .fail =>
      let r := queryLoop domainID recordType tO acc rest
      (r.1, .typedQuery ns recordType :: r.2)
    | .ok answers =>
      let acc2 := acc ++ answers.map (fun a => ⟨domainID, recordType, a.text, a.ttl, "QUERY"⟩)
      if acc2.length > 0 then (acc2, [.typedQuery ns recordType])
      else
        let r := queryLoop domainID recordType tO acc2 rest
        (r.1, .typedQuery ns recordType :: r.2)

/-- `queryDNSRecords` (part_000:67-126).  When the passed nameserver list
is empty it first issues one NS-discovery query (random server selection
is absorbed into the oracle `nsO`); on discovery failure it returns an
error, otherwise the discovered targets (trailing dots stripped, empty
targets excluded) become the working list fed to the typed-query loop. -/
def queryDNSRecords (domain : String) (domainID : Nat) (nameservers : List String)
    (recordType : String) (nsO : NSOutcome) (tO : String → XchgResult) :
    Except String (List RecordTuple) × List DNSEvent :=
  let domain2 := stripDot domain
  if nameservers = [] then
    match nsO with
    | .fail => (.error ("failed to query NS for " ++ domain2), [.nsDiscovery])
    | .ok answers =>
      let nss := answers.filterMap (fun a =>
        a.bind (fun t => let n := stripDot t; if n = "" then none else some n))
      let r := queryLoop domainID recordType tO [] nss
      (.ok r.1, .nsDiscovery :: r.2)
  else
    let r := queryLoop domainID recordType tO [] nameservers
    (.ok r.1, r.2)

/-- `var recordTypes` (part_000:19), written through `dns.TypeToString`. -/
def recordTypes : List String := ["A", "AAAA", "MX", "TXT", "CNAME"]

/-- `DomainInfo` (part_000:21-26). -/
structure DomainInfoM where
  id : Nat
  domain : String
  tld : String
  nameservers : List String
  deriving DecidableEq

/-- A SQL write the resolution pipeline attempts, tagged with whether the
underlying `Exec` succeeds (a failed write is rolled back / takes no
effect and is only logged by the source). -/
inductive DBOp where
  | store (records : List RecordTuple) (succeeded : Bool)
  | updateProgress (domainID : Nat) (succeeded : Bool)
  deriving DecidableEq

/-- One iteration of the per-record-type loop of `processDomain`
(part_000:130-147): query the type; on a query error only log and move
on; on success store the records when at least one arrived (the store's
own failure is only logged, part_000:137-141).  The pacing sleep is
dropped.  `sf rt` tells whether the store transaction for type `rt`
would succeed. -/
def typeStep (info : DomainInfoM) (nsO : String → NSOutcome)
    (tO : String → String → XchgResult) (sf : String → Bool)
    (acc : List DBOp × List DNSEvent) (rt : String) : List DBOp × List DNSEvent :=
  match queryDNSRecords info.domain info.id info.nameservers rt (nsO rt) (tO rt) with
  | (.error _, evs) => (acc.1, acc.2 ++ evs)
  | (.ok records, evs) =>
    if records = [] then (acc.1, acc.2 ++ evs)
    else (acc.1 ++ [.store records (sf rt)], acc.2 ++ evs)

/-- The record-type loop of `processDomain` folded over `recordTypes`. -/
def processTypes (info : DomainInfoM) (nsO : String → NSOutcome)
    (tO : String → String → XchgResult) (sf : String → Bool) :
    List DBOp × List DNSEvent :=
  recordTypes.foldl (typeStep info nsO tO sf) ([], [])

/-- `processDomain` (part_000:128-153): run the per-type loop, then always
attempt the cursor update (its failure only logged, part_000:149-151),
and return a nil error.  Result: (returned error, attempted SQL writes in
order, network queries issued in order).  `uf` tells whether the cursor
update's `Exec` succeeds. -/
def processDomain (info : DomainInfoM) (nsO : String → NSOutcome)
    (tO : String → String → XchgResult) (sf : String → Bool) (uf : Bool) :
    Option String × List DBOp × List DNSEvent :=
  let r := processTypes info nsO tO sf
  (none, r.1 ++ [.updateProgress info.id uf], r.2)

/-- `storeRecords` of the query package (part_000:155-195): inside one
transaction, insert every record tuple into `dns_records` — the insert's
`ON CONFLICT DO NOTHING` clause (part_000:163) never suppresses a row
because `schema.sql` declares no unique constraint over the inserted
columns (the partitions carry only a primary key on the auto-generated
`id`, schema.sql:49-55), so it is a plain append — and then set
`domains.last_updated` for `records[0]`'s domain id (part_000:184-189).
The source indexes `records[0]`; its only caller passes a non-empty
list, and on an empty list the transaction could never commit, so the
empty case leaves the store unchanged. -/
def storeRecords (st : DBState) (now : Nat) (records : List RecordTuple) : DBState :=
  match records.head? with
  | none => st
  | some r0 =>
    { st with
      dns_records := st.dns_records ++ records.map
        (fun r => ⟨r.domain_id, r.record_type, r.record_data, r.ttl, r.source, now⟩),
      domains := st.domains.map (fun p =>
        if p.1 = r0.domain_id then (p.1, { p.2 with last_updated := now }) else p) }

/-- `updateProgress` (part_000:58-65): write the singleton
`query_progress` row. -/
def updateProgress (st : DBState) (now : Nat) (domainID : Nat) : DBState :=
  { st with last_domain_id := some domainID, progress_updated_at := now }

/-- Effect of one attempted write on the store: a write whose `Exec`
fails is rolled back and changes nothing. -/
def applyOp (now : Nat) (st : DBState) : DBOp → DBState
  | .store records ok => if ok then storeRecords st now records else st
  | .updateProgress i ok => if ok then updateProgress st now i else st

def applyOps (now : Nat) (st : DBState) (ops : List DBOp) : DBState :=
  ops.foldl (applyOp now) st

/-- One resolution task run to completion against the store: apply every
write `processDomain` attempts (main's goroutine body, part_000:255-269,
under sequential execution). -/
def runTaskSeq (now : Nat) (nsOF : Nat → String → NSOutcome)
    (tOF : Nat → String → String → XchgResult) (sfF : Nat → String → Bool)
    (ufF : Nat → Bool) (st : DBState) (info : DomainInfoM) : DBState :=
  applyOps now st (processDomain info (nsOF info.id) (tOF info.id) (sfF info.id) (ufF info.id)).2.1

/-- A page of domains run task-by-task in the given order
(part_000:250-271).  Single-worker execution runs the page in dispatch
order; a concurrent execution is modelled by running the page in an
arbitrary permutation of that order — the store's final cursor value is
decided by whichever task's `updateProgress` lands last. -/
def runPage (now : Nat) (nsOF : Nat → String → NSOutcome)
    (tOF : Nat → String → String → XchgResult) (sfF : Nat → String → Bool)
    (ufF : Nat → Bool) (st : DBState) (page : List DomainInfoM) : DBState :=
  page.foldl (runTaskSeq now nsOF tOF sfF ufF) st

/-- Count of NS-discovery queries in an event trace. -/
def countNsDiscovery (evs : List DNSEvent) : Nat :=
  (evs.filter (fun e => match e with | .nsDiscovery => true | _ => false)).length

/-- A nameserver that either fails after retries or answers with an empty
answer section, for the given typed-query oracle. -/
def noAnswer (tO : String → XchgResult) (ns : String) : Bool :=
  match tO ns with
  | .fail => true
  | .ok answers => answers.isEmpty

/-- The record tuples a successful exchange against `ns` contributes. -/
def tuplesOf (domainID : Nat) (recordType : String) (tO : String → XchgResult)
    (ns : String) : List RecordTuple :=
  match tO ns with
  | .fail => []
  | .ok answers => answers.map (fun a => ⟨domainID, recordType, a.text, a.ttl, "QUERY"⟩)

end Query

namespace Czds

/-- `validRecordTypes` (czds_to_db.go:22-35). -/
def validRecordTypes : List String :=
  ["NS", "A", "AAAA", "MX", "TXT", "CNAME", "SOA", "PTR", "SRV", "CAA", "DNSKEY", "DS"]

/-- One resource record as yielded by `dns.NewZoneParser(...).Next()`
(czds_to_db.go:42): owner name (`rr.Header().Name`, fully qualified),
type (`dns.TypeToString[rr.Header().Rrtype]`), header ttl, textual form
(`rr.String()`), and — when the record asserts to `*dns.NS` — its `Ns`
target field (trailing dot included), `none` otherwise. -/
structure RawRR where
  name : String
  rtype : String
  ttl : Nat
  text : String
  nsTarget : Option String
  deriving DecidableEq

/-- One entry of the `records` batch slice built at czds_to_db.go:63-70.
`nsTarget` is a ghost field: the structured copy of the NS target that in
the source is embedded textually inside `record_data`; it is carried so
properties can speak about a record's target hostname. -/
structure ZRecord where
  domain_name : String
  record_type : String
  record_data : String
  ttl : Nat
  tld : String
  source : String
  nsTarget : Option String
  deriving DecidableEq

/-- One delivered batch: the record slice and the accompanying nameserver
map.  The Go `map[string][]string` built only by appending is modelled as
the list of (owner, target) insertions in order; an owner is a key of the
map exactly when it owns at least one entry, and its value is its entries
in order. -/
structure Batch where
  records : List ZRecord
  nameservers : List (String × String)
  deriving DecidableEq

/-- The value the batch's nameserver map holds for owner `d` (empty when
`d` is not a key). -/
def nsValueAssoc (nsmap : List (String × String)) (d : String) : List String :=
  nsmap.filterMap (fun p => if p.1 = d then some p.2 else none)

/-- Parser loop state: the pending record slice and nameserver map, and
the batches handed to `processBatch` so far. -/
structure ParseState where
  pending : List ZRecord
  pendingNS : List (String × String)
  delivered : List Batch
  deriving DecidableEq

/-- czds_to_db.go:82-89: once the pending slice has reached the batch
size, deliver it together with the pending nameserver map and clear
both. -/
def flushIfFull (batchSize : Nat) (st : ParseState) : ParseState :=
  if batchSize ≤ st.pending.length then
    ⟨[], [], st.delivered ++ [⟨st.pending, st.pendingNS⟩]⟩
  else st

/-- One iteration of the parsing loop (czds_to_db.go:42-90): skip the TLD
apex owner, strip the owner's trailing dot and skip an owner left empty,
skip unsupported types, append the record tuple, accumulate the NS
target (trailing dot stripped; an empty target `continue`s, skipping
even the batch-flush check), then flush a full batch. -/
def step (tld : String) (batchSize : Nat) (st : ParseState) (rr : RawRR) : ParseState :=
  if rr.name = tld ++ "." then st
  else
    let domain := stripDot rr.name
    if domain = "" then st
    else if rr.rtype ∉ validRecordTypes then st
    else
      let st1 : ParseState :=
        ⟨st.pending ++ [⟨domain, rr.rtype, rr.text, rr.ttl, tld, "CZDS", rr.nsTarget⟩],
         st.pendingNS, st.delivered⟩
      if rr.rtype = "NS" then
        match rr.nsTarget with
        | some t =>
          let nsName := stripDot t
          if nsName = "" then st1
          else flushIfFull batchSize ⟨st1.pending, st1.pendingNS ++ [(domain, nsName)], st1.delivered⟩
        | none => flushIfFull batchSize st1
      else flushIfFull batchSize st1

/-- `parseZoneFile` (czds_to_db.go:37-101) over a zone stream.  The
miekg zone parser yields records until it stops, and reports a malformed
entry through `zp.Err()` after the loop; the stream is therefore modelled
as the list of records yielded before the stop plus the flag
`parseErr = (zp.Err() ≠ nil)`.  On a parse error the error is returned
and the pending partial batch is dropped; otherwise a non-empty
remainder is delivered as a final batch.  The batch consumer is treated
as infallible (its failure path is not needed by any claim below).
Result: (batches delivered to `processBatch` in order, whether an error
was returned). -/
def parseZoneFile (tld : String) (batchSize : Nat) (rrs : List RawRR)
    (parseErr : Bool) : List Batch × Bool :=
  let st := rrs.foldl (step tld batchSize) ⟨[], [], []⟩
  if parseErr then (st.delivered, true)
  else if st.pending = [] then (st.delivered, false)
  else (st.delivered ++ [⟨st.pending, st.pendingNS⟩], false)

/-- The tail of `processZoneFile` (czds_to_db.go:230-245) for a file that
passed the eligibility and freshness checks: stream the file through the
parser; on error return it without touching `processed_tlds`; otherwise
mark the TLD processed.  Result: (batches committed, TLD marked
processed, error returned). -/
def processZoneFileRun (tld : String) (batchSize : Nat) (rrs : List RawRR)
    (parseErr : Bool) : List Batch × Bool × Bool :=
  let r := parseZoneFile tld batchSize rrs parseErr
  (r.1, !r.2, r.2)

/-- Replace the first `domains` row matching `(name, tld)` with the
upserted row, returning its id; `none` when no row matches.  This is the
`ON CONFLICT (domain_name, tld) DO UPDATE SET nameservers = ...,
last_updated = ...` arm of czds_to_db.go:109-115. -/
def updateFirst (name tld : String) (ns : List String) (now : Nat) :
    List (Nat × DomainRow) → Option (List (Nat × DomainRow) × Nat)
  | [] => none
  | p :: rest =>
    if p.2.domain_name = name ∧ p.2.tld = tld then
      some ((p.1, ⟨name, tld, ns, now⟩) :: rest, p.1)
    else
      match updateFirst name tld ns now rest with
      | some q => some ((p :: q.1, q.2))
      | none => none

/-- The domain upsert `INSERT ... ON CONFLICT (domain_name, tld) DO UPDATE
... RETURNING id` (czds_to_db.go:109-115): update the existing row's
nameservers and freshness timestamp, or insert a fresh row under the next
serial id; either way return the row's id. -/
def upsertDomain (st : DBState) (name tld : String) (ns : List String) (now : Nat) :
    DBState × Nat :=
  match updateFirst name tld ns now st.domains with
  | some q => ({ st with domains := q.1 }, q.2)
  | none =>
    ({ st with
        domains := st.domains ++ [(st.next_domain_id, ⟨name, tld, ns, now⟩)],
        next_domain_id := st.next_domain_id + 1 }, st.next_domain_id)

/-- First pass of `storeRecords` (czds_to_db.go:133-149): walk the batch
and, for the first occurrence of each owner domain, upsert its `domains`
row with the batch's accumulated nameservers for it (the empty list when
the batch map has no entry, czds_to_db.go:138-141) and remember its id. -/
def storeDomainsPass (tld : String) (now : Nat) (nsmap : List (String × String)) :
    DBState → List (String × Nat) → List ZRecord → DBState × List (String × Nat)
  | st, ids, [] => (st, ids)
  | st, ids, r :: rest =>
    if r.domain_name ∈ ids.map Prod.fst then
      storeDomainsPass tld now nsmap st ids rest
    else
      let u := upsertDomain st r.domain_name tld (nsValueAssoc nsmap r.domain_name) now
      storeDomainsPass tld now nsmap u.1 (ids ++ [(r.domain_name, u.2)]) rest

/-- The id recorded for a domain by the first pass (Go reads the map, which
the first pass has populated for every owner occurring in the batch). -/
def lookupId (ids : List (String × Nat)) (d : String) : Nat :=
  match ids.find? (fun p => decide (p.1 = d)) with
  | some p => p.2
  | none => 0

/-- Second pass of `storeRecords` (czds_to_db.go:151-166): insert every
record of the batch into `dns_records` under its owner's id.  The
statement's `ON CONFLICT DO NOTHING` (czds_to_db.go:125) never suppresses
a row, because `schema.sql` declares no unique constraint over the
inserted columns — the `dns_records` partitions carry only a primary key
on the auto-generated `id` (schema.sql:49-55) — so every exec appends. -/
def storeRecordsPass (now : Nat) (ids : List (String × Nat)) (st : DBState)
    (recs : List ZRecord) : DBState :=
  recs.foldl (fun s r =>
    { s with dns_records := s.dns_records ++
        [⟨lookupId ids r.domain_name, r.record_type, r.record_data, r.ttl, r.source, now⟩] }) st

/-- `storeRecords` of the czds package (czds_to_db.go:103-169): one
transaction running the domain-upsert pass then the record-insert pass. -/
def storeRecords (st : DBState) (recs : List ZRecord)
    (nsmap : List (String × String)) (tld : String) (now : Nat) : DBState :=
  let p := storeDomainsPass tld now nsmap st [] recs
  storeRecordsPass now p.2 p.1 recs

/-- The per-batch callback of `processZoneFile` (czds_to_db.go:230-236)
applied to every delivered batch of a file in order. -/
def ingestBatches (st : DBState) (batches : List Batch) (tld : String) (now : Nat) :
    DBState :=
  batches.foldl (fun s b => storeRecords s b.records b.nameservers tld now) st

/-- `SELECT` of a `domains` row by its unique key. -/
def lookupDomain (st : DBState) (name tld : String) : Option (Nat × DomainRow) :=
  st.domains.find? (fun p => decide (p.2.domain_name = name ∧ p.2.tld = tld))

/-- The stored nameserver list of the `(name, tld)` row, when present. -/
def nsStored (st : DBState) (name tld : String) : Option (List String) :=
  (lookupDomain st name tld).map (fun p => p.2.nameservers)

/-- The last delivered batch holding at least one record owned by `d`. -/
def lastBatchContaining (batches : List Batch) (d : String) : Option Batch :=
  batches.reverse.find? (fun b => decide (d ∈ b.records.map (fun r => r.domain_name)))

/-- What a domain's stored nameserver list should be after a file's
batches are ingested: the accumulated NS targets the last batch holding
one of its records carried for it (the empty list when that batch's map
has no entry for it), or its pre-ingestion value when no batch holds a
record of it. -/
def expectedNS (st : DBState) (batches : List Batch) (tld : String)
    (d : String) : Option (List String) :=
  match lastBatchContaining batches d with
  | some b => some (nsValueAssoc b.nameservers d)
  | none => nsStored st d tld

/-- The nameserver-map entry a batch record contributes
(czds_to_db.go:71-80): NS records whose target strips to a non-empty
hostname contribute (owner, stripped target); everything else
contributes nothing. -/
def nsEntryOf (r : ZRecord) : Option (String × String) :=
  match r.nsTarget with
  | some t =>
    if r.record_type = "NS" ∧ stripDot t ≠ "" then some (r.domain_name, stripDot t)
    else none
  | none => none

def nsEntriesOf (recs : List ZRecord) : List (String × String) :=
  recs.filterMap nsEntryOf

/-- Owner-name sanity of a batch record: not empty and not the TLD apex. -/
def dOk (tld : String) (r : ZRecord) : Prop :=
  r.domain_name ≠ "" ∧ r.domain_name ≠ tld

/-- Well-formedness of a delivered batch: its nameserver map is exactly
the NS entries of its records (in document order, targets stripped,
empty targets excluded), and every record's owner is sane. -/
def batchOk (tld : String) (b : Batch) : Prop :=
  b.nameservers = nsEntriesOf b.records ∧ ∀ r ∈ b.records, dOk tld r

/-- The parsing loop's invariant. -/
def stateOk (tld : String) (st : ParseState) : Prop :=
  st.pendingNS = nsEntriesOf st.pending
  ∧ (∀ r ∈ st.pending, dOk tld r)
  ∧ ∀ b ∈ st.delivered, batchOk tld b

end Czds

namespace Pool

/-- The deferred calls a worker goroutine registers, in registration
order. -/
inductive DeferAction where
  | wgDone
  | semRelease
  | recoverLog
  deriving DecidableEq

/-- How a dispatched task's body ends. -/
inductive TaskOutcome where
  | normal
  | panicked (msg : String)
  deriving DecidableEq

/-- What the goroutine boundary turns a task ending into.  In Go a panic
unwinds through the deferred calls in LIFO order; a deferred function
that calls `recover()` stops it (here: logs it), and a panic no deferred
function recovers escapes the goroutine, which terminates the whole
process — the pool and every sibling task with it. -/
inductive TaskEffect where
  | completed
  | panicRecoveredLogged (msg : String)
  | panicEscaped (msg : String)
  deriving DecidableEq

/-- Run a LIFO stack of deferred calls against the task's ending:
`recoverLog` absorbs an in-flight panic; `wgDone` and `semRelease` leave
it in flight. -/
def runDeferStack : List DeferAction → TaskOutcome → TaskEffect
  | [], .normal => .completed
  | [], .panicked m => .panicEscaped m
  | .recoverLog :: _, .panicked m => .panicRecoveredLogged m
  | _ :: rest, o => runDeferStack rest o

/-- Run a task whose goroutine registered `defers` (in registration
order; they execute in reverse). -/
def runTask (defers : List DeferAction) (o : TaskOutcome) : TaskEffect :=
  runDeferStack defers.reverse o

/-- The resolution pipeline's goroutine body (part_000:255-269):
`defer wg.Done()`, then a deferred recover-and-log, then the semaphore
acquire with `defer` of its release. -/
def resolutionWorker (o : TaskOutcome) : TaskEffect :=
  runTask [.wgDone, .recoverLog, .semRelease] o

/-- The ingestion pipeline's goroutine body (czds_to_db.go:293-304):
`defer wg.Done()` and the deferred semaphore release — no deferred call
in it invokes `recover()`. -/
def ingestionWorker (o : TaskOutcome) : TaskEffect :=
  runTask [.wgDone, .semRelease] o

end Pool

/-- Everything of a `domains` row except its freshness timestamp. -/
def domainKey (p : Nat × DomainRow) : Nat × String × String × List String :=
  (p.1, (p.2.domain_name, (p.2.tld, p.2.nameservers)))

/-- The inserted columns of a `dns_records` row (everything except the
insertion timestamp). -/
def dnsKey (r : DNSRow) : Nat × String × String × Nat × String :=
  (r.domain_id, (r.record_type, (r.record_data, (r.ttl, r.source))))

/-- C5's claim instantiated at one input: every NS record delivered in a
batch has its owner as a key of that batch's nameserver map. -/
def nsKeyClaimAt (tld : String) (batchSize : Nat) (rrs : List Czds.RawRR)
    (parseErr : Bool) : Prop :=
  ∀ b ∈ (Czds.parseZoneFile tld batchSize rrs parseErr).1,
    ∀ r ∈ b.records, r.record_type = "NS" → r.domain_name ∈ b.nameservers.map Prod.fst

/-- A store holding one ingested domain row with a stale freshness
timestamp. -/
def exDB : DBState := ⟨[(1, ⟨"foo.ex", "ex", ["ns1.ex"], 0⟩)], [], none, 0, 2⟩

/-- The empty store. -/
def emptyDB : DBState := ⟨[], [], none, 0, 1⟩

/-- A live-query record tuple owned by domain id 1. -/
def exTuple : Query.RecordTuple := ⟨1, "A", "foo.ex. 300 IN A 93.184.216.34", 300, "QUERY"⟩

/-- A dispatched domain whose known nameserver list is empty. -/
def exInfoNoNS : Query.DomainInfoM := ⟨7, "foo.ex", "ex", []⟩

/-- A dispatched domain with one known nameserver. -/
def exInfo : Query.DomainInfoM := ⟨9, "bar.ex", "ex", ["ns1.ex"]⟩

/-- Discovery oracle: every NS-discovery exchange fails after retries. -/
def failNsO : String → Query.NSOutcome := fun _ => .fail

/-- Typed-query oracle: every exchange fails after retries. -/
def failTO : String → String → Query.XchgResult := fun _ _ => .fail

/-- Typed-query oracle answering one A record at ns2.ex and failing at
every other nameserver. -/
def exTO1 : String → Query.XchgResult :=
  fun ns => if ns = "ns2.ex" then .ok [⟨"bar.ex. 300 IN A 93.184.216.34", 300⟩] else .fail

/-- A zone NS record whose target is the root label, which strips to the
empty hostname. -/
def exRootNS : Czds.RawRR := ⟨"foo.ex.", "NS", 300, "foo.ex. 300 IN NS .", some "."⟩

/-- A small well-formed zone: one NS record and one A record under one
owner. -/
def exZone : List Czds.RawRR :=
  [⟨"foo.ex.", "NS", 300, "foo.ex. 300 IN NS ns1.ex.", some "ns1.ex."⟩,
   ⟨"foo.ex.", "A", 300, "foo.ex. 300 IN A 93.184.216.34", none⟩]

/-- An ingested A record owned by foo.ex, as a batch record. -/
def exZRec : Czds.ZRecord :=
  ⟨"foo.ex", "A", "foo.ex. 300 IN A 93.184.216.34", 300, "ex", "CZDS", none⟩

/-- An ingested NS record owned by foo.ex with target ns1.ex. -/
def exZRecNS : Czds.ZRecord :=
  ⟨"foo.ex", "NS", "foo.ex. 300 IN NS ns1.ex.", 300, "ex", "CZDS", some "ns1.ex."⟩

/-- Two batches over the same owner: the first carries its NS record, the
second only an A record, so the second batch's map has no entry for the
owner. -/
def exBatches : List Czds.Batch :=
  [⟨[exZRecNS], [("foo.ex", "ns1.ex")]⟩, ⟨[exZRec], []⟩]

/-- A two-domain page in ascending id order. -/
def exPage : List Query.DomainInfoM :=
  [⟨1, "foo.ex", "ex", ["ns1.ex"]⟩, ⟨2, "bar.ex", "ex", ["ns1.ex"]⟩]

namespace Query

theorem queryLoop_eq (domainID : Nat) (rt : String) (tO : String → XchgResult)
    (nss : List String) :
    queryLoop domainID rt tO [] nss =
      ((match nss.dropWhile (noAnswer tO) with
        | [] => []
        | n :: _ => tuplesOf domainID rt tO n),
       (nss.takeWhile (noAnswer tO) ++ (nss.dropWhile (noAnswer tO)).take 1).map
         (fun n => DNSEvent.typedQuery n rt)) := by
  induction nss with
  | nil => rfl
  | cons ns rest ih =>
    cases h : tO ns with
    | fail =>
      have hna : noAnswer tO ns = true := by simp [noAnswer, h]
      simp [queryLoop, h, List.dropWhile_cons, List.takeWhile_cons, hna, ih]
    | ok answers =>
      cases ha : answers with
      | nil =>
        have hna : noAnswer tO ns = true := by simp [noAnswer, h, ha]
        simp [queryLoop, h, ha, List.dropWhile_cons, List.takeWhile_cons, hna, ih]
      | cons a as =>
        have hna : noAnswer tO ns = false := by simp [noAnswer, h, ha]
        simp [queryLoop, h, ha, List.dropWhile_cons, List.takeWhile_cons, hna, tuplesOf]

theorem countNsDiscovery_map_typed (rt : String) (l : List String) :
    countNsDiscovery (l.map (fun n => DNSEvent.typedQuery n rt)) = 0 := by
  induction l with
  | nil => rfl
  | cons x xs ih => simp [countNsDiscovery, List.filter]

theorem countNsDiscovery_queryLoop (domainID : Nat) (rt : String)
    (tO : String → XchgResult) (nss : List String) :
    countNsDiscovery (queryLoop domainID rt tO [] nss).2 = 0 := by
  rw [queryLoop_eq]
  exact countNsDiscovery_map_typed rt _

theorem qdr_discovery_count_empty (domain : String) (domainID : Nat) (rt : String)
    (nsO : NSOutcome) (tO : String → XchgResult) :
    countNsDiscovery (queryDNSRecords domain domainID [] rt nsO tO).2 = 1 ∧
    (queryDNSRecords domain domainID [] rt nsO tO).2.head? = some DNSEvent.nsDiscovery := by
  cases nsO with
  | fail => simp [queryDNSRecords, countNsDiscovery, List.filter]
  | ok answers =>
    constructor
    · simp only [queryDNSRecords]
      have := countNsDiscovery_queryLoop domainID rt tO
        (answers.filterMap (fun a =>
          a.bind (fun t => let n := stripDot t; if n = "" then none else some n)))
      simp only [countNsDiscovery, List.filter] at this ⊢
      simp [this]
    · simp [queryDNSRecords]

theorem qdr_discovery_count_nonempty (domain : String) (domainID : Nat) (rt : String)
    (nsO : NSOutcome) (tO : String → XchgResult) (nss : List String) (h : nss ≠ []) :
    countNsDiscovery (queryDNSRecords domain domainID nss rt nsO tO).2 = 0 := by
  simp [queryDNSRecords, h, countNsDiscovery_queryLoop]

theorem qdr_events_empty_cons (domain : String) (domainID : Nat) (rt : String)
    (nsO : NSOutcome) (tO : String → XchgResult) :
    ∃ t, (queryDNSRecords domain domainID [] rt nsO tO).2 = DNSEvent.nsDiscovery :: t := by
  cases nsO <;> exact ⟨_, rfl⟩

theorem typeStep_events (info : DomainInfoM) (nsO : String → NSOutcome)
    (tO : String → String → XchgResult) (sf : String → Bool)
    (acc : List DBOp × List DNSEvent) (rt : String) :
    (typeStep info nsO tO sf acc rt).2 =
      acc.2 ++ (queryDNSRecords info.domain info.id info.nameservers rt (nsO rt) (tO rt)).2 := by
  unfold typeStep
  split
  · next evs heq => rw [heq]
  · next records evs heq => rw [heq]; split <;> rfl

theorem foldl_typeStep_events (info : DomainInfoM) (nsO : String → NSOutcome)
    (tO : String → String → XchgResult) (sf : String → Bool) :
    ∀ (rts : List String) (acc : List DBOp × List DNSEvent),
      (rts.foldl (typeStep info nsO tO sf) acc).2 =
        acc.2 ++ (rts.map (fun rt =>
          (queryDNSRecords info.domain info.id info.nameservers rt (nsO rt) (tO rt)).2)).flatten
  | [], acc => by simp
  | rt :: rts, acc => by
    rw [List.foldl_cons, foldl_typeStep_events info nsO tO sf rts, typeStep_events]
    simp

theorem count_flatten_ones (ls : List (List DNSEvent))
    (h : ∀ l ∈ ls, countNsDiscovery l = 1) :
    countNsDiscovery ls.flatten = ls.length := by
  induction ls with
  | nil => rfl
  | cons x xs ih =>
    have hx := h x (by simp)
    have hxs : ∀ l ∈ xs, countNsDiscovery l = 1 := fun l hl => h l (by simp [hl])
    simp only [List.flatten_cons, countNsDiscovery, List.filter_append, List.length_append,
      List.length_cons]
    have := ih hxs
    simp only [countNsDiscovery] at hx this
    omega

theorem processDomain_events (info : DomainInfoM) (nsO : String → NSOutcome)
    (tO : String → String → XchgResult) (sf : String → Bool) (uf : Bool) :
    (processDomain info nsO tO sf uf).2.2 =
      (recordTypes.map (fun rt =>
        (queryDNSRecords info.domain info.id info.nameservers rt (nsO rt) (tO rt)).2)).flatten := by
  have h := foldl_typeStep_events info nsO tO sf recordTypes ([], [])
  simp only [List.nil_append] at h
  exact h

theorem processDomain_ops (info : DomainInfoM) (nsO : String → NSOutcome)
    (tO : String → String → XchgResult) (sf : String → Bool) (uf : Bool) :
    (processDomain info nsO tO sf uf).2.1 =
      (processTypes info nsO tO sf).1 ++ [DBOp.updateProgress info.id uf] := rfl

theorem applyOps_append_update (now : Nat) (st : DBState) (ops : List DBOp) (i : Nat) :
    (applyOps now st (ops ++ [DBOp.updateProgress i true])).last_domain_id = some i := by
  unfold applyOps
  rw [List.foldl_append]
  rfl

theorem storeRecords_domainKey (st : DBState) (now : Nat) (recs : List RecordTuple) :
    (storeRecords st now recs).domains.map domainKey = st.domains.map domainKey := by
  unfold storeRecords
  cases recs.head? with
  | none => rfl
  | some r0 =>
    simp only [List.map_map]
    induction st.domains with
    | nil => rfl
    | cons p ps ih =>
      simp only [List.map_cons, ih]
      congr 1
      by_cases h : p.1 = r0.domain_id <;> simp [h, domainKey]

theorem applyOps_domainKey (now : Nat) : ∀ (ops : List DBOp) (st : DBState),
    (applyOps now st ops).domains.map domainKey = st.domains.map domainKey
  | [], _ => rfl
  | op :: ops, st => by
    have hstep : applyOps now st (op :: ops) = applyOps now (applyOp now st op) ops := rfl
    rw [hstep, applyOps_domainKey now ops]
    cases op with
    | store recs ok =>
      cases ok with
      | true => exact storeRecords_domainKey st now recs
      | false => rfl
    | updateProgress i ok => cases ok <;> rfl

end Query

/-- C1 counterexample: the resolution pipeline's `storeRecords` runs
`UPDATE domains SET last_updated = ... WHERE id = ...` (part_000:184-189),
so storing one live-query record tuple changes the stored domain row —
the resolution pipeline does modify a row of the `domains` table. -/
theorem c1_counterexample :
    (Query.storeRecords exDB 5 [exTuple]).domains ≠ exDB.domains ∧
    (Query.storeRecords exDB 5 [exTuple]).domains =
      [(1, ⟨"foo.ex", "ex", ["ns1.ex"], 5⟩)] := by
  constructor
  · decide
  · decide

/-- C1 (amended): the resolution pipeline never creates or deletes a
`domains` row and never modifies a row's id, name, TLD or nameserver
list — applying every write a `processDomain` run attempts leaves every
domain row unchanged except possibly its freshness timestamp
`last_updated`, which `storeRecords` does update for the stored domain. -/
theorem c1_resolution_frame (info : Query.DomainInfoM)
    (nsO : String → Query.NSOutcome) (tO : String → String → Query.XchgResult)
    (sf : String → Bool) (uf : Bool) (now : Nat) (st : DBState) :
    (Query.applyOps now st (Query.processDomain info nsO tO sf uf).2.1).domains.map domainKey
      = st.domains.map domainKey :=
  Query.applyOps_domainKey now _ st

/-- C2 counterexample: `processDomain` on a domain with an empty
nameserver list calls `queryDNSRecords` once per record type
(part_000:130-131), and each call performs its own NS discovery
(part_000:74-96), so five NS-discovery queries are issued — not exactly
one. -/
theorem c2_counterexample :
    Query.countNsDiscovery
      (Query.processDomain exInfoNoNS failNsO failTO (fun _ => true) true).2.2 = 5
    ∧ (5 : Nat) ≠ 1 := by
  constructor
  · decide
  · decide

/-- C2 (amended): NS discovery happens once per `queryDNSRecords`
invocation, not once per domain: when the passed nameserver list is
empty, exactly one NS-discovery query is issued and it precedes every
typed query of that invocation, and none is issued when the list is
non-empty; since `processDomain` invokes `queryDNSRecords` once per
record type, a domain whose known nameserver list is empty incurs one NS
discovery per record type (five in total), the first of which precedes
all typed queries. -/
theorem c2_ns_discovery_per_type
    (domain : String) (domainID : Nat) (rt : String) (nsO : Query.NSOutcome)
    (tO : String → Query.XchgResult) (nss : List String)
    (info : Query.DomainInfoM) (nsO2 : String → Query.NSOutcome)
    (tO2 : String → String → Query.XchgResult) (sf : String → Bool) (uf : Bool) :
    (Query.countNsDiscovery (Query.queryDNSRecords domain domainID [] rt nsO tO).2 = 1
      ∧ (Query.queryDNSRecords domain domainID [] rt nsO tO).2.head?
          = some Query.DNSEvent.nsDiscovery)
    ∧ (nss ≠ [] →
        Query.countNsDiscovery (Query.queryDNSRecords domain domainID nss rt nsO tO).2 = 0)
    ∧ (info.nameservers = [] →
        Query.countNsDiscovery (Query.processDomain info nsO2 tO2 sf uf).2.2
            = Query.recordTypes.length
          ∧ (Query.processDomain info nsO2 tO2 sf uf).2.2.head?
              = some Query.DNSEvent.nsDiscovery) := by
  refine ⟨Query.qdr_discovery_count_empty domain domainID rt nsO tO,
    fun h => Query.qdr_discovery_count_nonempty domain domainID rt nsO tO nss h,
    fun h => ⟨?_, ?_⟩⟩
  · rw [Query.processDomain_events]
    rw [Query.count_flatten_ones _ ?_]
    · simp
    · intro l hl
      obtain ⟨rt2, _, rfl⟩ := List.mem_map.mp hl
      rw [h]
      exact (Query.qdr_discovery_count_empty info.domain info.id rt2 (nsO2 rt2) (tO2 rt2)).1
  · rw [Query.processDomain_events, h]
    have hrts : Query.recordTypes = "A" :: ["AAAA", "MX", "TXT", "CNAME"] := rfl
    rw [hrts]
    obtain ⟨t, ht⟩ := Query.qdr_events_empty_cons info.domain info.id "A" (nsO2 "A") (tO2 "A")
    simp [ht]

/-- C2 witness: the amended theorem applied at a concrete nameserver list
and a concrete domain with an empty stored list. -/
theorem c2_witness :
    (["ns1.ex"] : List String) ≠ [] ∧ exInfoNoNS.nameservers = [] ∧
    Query.countNsDiscovery
      (Query.queryDNSRecords "foo.ex" 7 ["ns1.ex"] "A" .fail (failTO "A")).2 = 0 ∧
    Query.countNsDiscovery
      (Query.processDomain exInfoNoNS failNsO failTO (fun _ => true) true).2.2
        = Query.recordTypes.length :=
  ⟨by decide, rfl,
   (c2_ns_discovery_per_type "foo.ex" 7 "A" .fail (failTO "A") ["ns1.ex"]
      exInfoNoNS failNsO failTO (fun _ => true) true).2.1 (by decide),
   ((c2_ns_discovery_per_type "foo.ex" 7 "A" .fail (failTO "A") ["ns1.ex"]
      exInfoNoNS failNsO failTO (fun _ => true) true).2.2 rfl).1⟩

/-- C3: evaluating the ingestion store at a failing input — storing the
same single-record batch twice for the same domain — leaves two
`dns_records` rows identical in every inserted column, because no unique
constraint of schema.sql covers them and the `ON CONFLICT DO NOTHING`
clause (czds_to_db.go:125) therefore never fires. -/
theorem c3_duplicate_rows :
    ((Czds.storeRecords (Czds.storeRecords emptyDB [exZRec] [] "ex" 1)
        [exZRec] [] "ex" 2).dns_records.map dnsKey)
      = [(1, ("A", ("foo.ex. 300 IN A 93.184.216.34", (300, "CZDS")))),
         (1, ("A", ("foo.ex. 300 IN A 93.184.216.34", (300, "CZDS"))))] := by
  decide

/-- C4 counterexample: a panic inside an ingestion task is not recovered —
the czds worker goroutine (czds_to_db.go:293-304) registers no deferred
`recover()`, so the panic escapes the goroutine boundary (terminating the
process in Go). -/
theorem c4_counterexample :
    Pool.ingestionWorker (.panicked "boom") = .panicEscaped "boom" ∧
    Pool.TaskEffect.panicEscaped "boom" ≠ Pool.TaskEffect.panicRecoveredLogged "boom" := by
  constructor
  · rfl
  · decide

/-- C4 (amended): only the resolution pipeline's worker goroutines recover
and log a task panic at the task boundary (part_000:257-261); the
ingestion pipeline's worker goroutines register no recover, so a panic
raised in a zone-file task escapes the goroutine — in Go, terminating the
process and with it the pool and every sibling task.  Non-panicking tasks
complete normally in both pools. -/
theorem c4_panic_boundaries (m : String) :
    Pool.resolutionWorker (.panicked m) = .panicRecoveredLogged m ∧
    Pool.ingestionWorker (.panicked m) = .panicEscaped m ∧
    Pool.resolutionWorker .normal = .completed ∧
    Pool.ingestionWorker .normal = .completed :=
  ⟨rfl, rfl, rfl, rfl⟩

/-- C7: for a domain, a record type and a non-empty candidate nameserver
list, `queryDNSRecords` queries the nameservers sequentially in list
order, stopping at the first one whose response carries at least one
answer — the queries issued are exactly the no-answer front of the list
plus that first answering nameserver — returns that nameserver's answers
as the type's records, and when every nameserver fails after retries or
answers empty it returns zero records with a nil error. -/
theorem c7_first_answer_wins (domain : String) (domainID : Nat) (nss : List String)
    (rt : String) (nsO : Query.NSOutcome) (tO : String → Query.XchgResult)
    (h : nss ≠ []) :
    Query.queryDNSRecords domain domainID nss rt nsO tO =
      (Except.ok (match nss.dropWhile (Query.noAnswer tO) with
        | [] => []
        | n :: _ => Query.tuplesOf domainID rt tO n),
       (nss.takeWhile (Query.noAnswer tO) ++ (nss.dropWhile (Query.noAnswer tO)).take 1).map
         (fun n => Query.DNSEvent.typedQuery n rt)) := by
  simp [Query.queryDNSRecords, h, Query.queryLoop_eq]

/-- C7 witness: with three candidate nameservers of which only the second
answers, exactly the first two are queried and the second one's answer
becomes the type's records. -/
theorem c7_witness :
    (["ns1.ex", "ns2.ex", "ns3.ex"] : List String) ≠ [] ∧
    Query.queryDNSRecords "bar.ex" 9 ["ns1.ex", "ns2.ex", "ns3.ex"] "A" .fail exTO1 =
      (Except.ok [⟨9, "A", "bar.ex. 300 IN A 93.184.216.34", 300, "QUERY"⟩],
       [.typedQuery "ns1.ex" "A", .typedQuery "ns2.ex" "A"]) :=
  ⟨by decide, by
    rw [c7_first_answer_wins "bar.ex" 9 ["ns1.ex", "ns2.ex", "ns3.ex"] "A" .fail exTO1
      (by decide)]
    rfl⟩

/-- C10: `processDomain` always returns a nil error; per-type query and
store failures only log and move on; the cursor update is the last write
it attempts, for every dispatched domain and under every oracle — and
whenever that update's exec succeeds the persisted cursor ends at this
domain's id, even if every record type yielded zero records or every
store failed. -/
theorem c10_process_domain_total (info : Query.DomainInfoM)
    (nsO : String → Query.NSOutcome) (tO : String → String → Query.XchgResult)
    (sf : String → Bool) (uf : Bool) (now : Nat) (st : DBState) :
    (Query.processDomain info nsO tO sf uf).1 = none ∧
    (∃ ops, (Query.processDomain info nsO tO sf uf).2.1 =
      ops ++ [Query.DBOp.updateProgress info.id uf]) ∧
    (uf = true →
      (Query.applyOps now st (Query.processDomain info nsO tO sf uf).2.1).last_domain_id
        = some info.id) := by
  refine ⟨rfl, ⟨(Query.processTypes info nsO tO sf).1, rfl⟩, fun h => ?_⟩
  rw [Query.processDomain_ops, h]
  exact Query.applyOps_append_update now st _ info.id

/-- C10 witness: the theorem applied to a concrete domain under
all-failing oracles; the cursor still ends at the domain's id. -/
theorem c10_witness :
    (true = true) ∧
    (Query.processDomain exInfo failNsO failTO (fun _ => false) true).1 = none ∧
    (Query.applyOps 3 emptyDB
      (Query.processDomain exInfo failNsO failTO (fun _ => false) true).2.1).last_domain_id
        = some exInfo.id :=
  ⟨rfl, (c10_process_domain_total exInfo failNsO failTO (fun _ => false) true 3 emptyDB).1,
   (c10_process_domain_total exInfo failNsO failTO (fun _ => false) true 3 emptyDB).2.2 rfl⟩

/-- C6: when the zone stream ends in a malformed entry, `parseZoneFile`
returns the error, delivers exactly the batches flushed before the error
— the error-free run of the same stream delivers those same batches plus
at most the one pending remainder batch, which the erroring run drops —
and `processZoneFile` then propagates the error without upserting the
file's ProcessedTLD timestamp, leaving the file eligible for wholesale
retry. -/
theorem c6_parse_error_isolation (tld : String) (batchSize : Nat)
    (rrs : List Czds.RawRR) :
    (Czds.parseZoneFile tld batchSize rrs true).2 = true
    ∧ (∃ rest, (Czds.parseZoneFile tld batchSize rrs false).1
        = (Czds.parseZoneFile tld batchSize rrs true).1 ++ rest ∧ rest.length ≤ 1)
    ∧ (Czds.processZoneFileRun tld batchSize rrs true).2.1 = false
    ∧ (Czds.processZoneFileRun tld batchSize rrs true).2.2 = true := by
  refine ⟨rfl, ?_, rfl, rfl⟩
  show ∃ rest,
    (if (rrs.foldl (Czds.step tld batchSize) ⟨[], [], []⟩).pending = []
      then ((rrs.foldl (Czds.step tld batchSize) ⟨[], [], []⟩).delivered, false)
      else ((rrs.foldl (Czds.step tld batchSize) ⟨[], [], []⟩).delivered ++
        [⟨(rrs.foldl (Czds.step tld batchSize) ⟨[], [], []⟩).pending,
          (rrs.foldl (Czds.step tld batchSize) ⟨[], [], []⟩).pendingNS⟩], false)).1
    = (rrs.foldl (Czds.step tld batchSize) ⟨[], [], []⟩).delivered ++ rest
    ∧ rest.length ≤ 1
  by_cases h : (rrs.foldl (Czds.step tld batchSize) ⟨[], [], []⟩).pending = []
  · exact ⟨[], by simp [h], by simp⟩
  · exact ⟨[⟨(rrs.foldl (Czds.step tld batchSize) ⟨[], [], []⟩).pending,
      (rrs.foldl (Czds.step tld batchSize) ⟨[], [], []⟩).pendingNS⟩], by simp [h], by simp⟩

namespace Query

theorem runTaskSeq_cursor (now : Nat) (nsOF : Nat → String → NSOutcome)
    (tOF : Nat → String → String → XchgResult) (sfF : Nat → String → Bool)
    (ufF : Nat → Bool) (st : DBState) (info : DomainInfoM) (h : ufF info.id = true) :
    (runTaskSeq now nsOF tOF sfF ufF st info).last_domain_id = some info.id := by
  unfold runTaskSeq
  rw [processDomain_ops, h]
  exact applyOps_append_update now st _ info.id

theorem runPage_cursor (now : Nat) (nsOF : Nat → String → NSOutcome)
    (tOF : Nat → String → String → XchgResult) (sfF : Nat → String → Bool)
    (ufF : Nat → Bool) :
    ∀ (page : List DomainInfoM) (st : DBState), page ≠ [] →
      (∀ d ∈ page, ufF d.id = true) →
      (runPage now nsOF tOF sfF ufF st page).last_domain_id
        = page.getLast?.map (fun d => d.id)
  | [], _, h, _ => absurd rfl h
  | [x], st, _, hu => by
    simp only [runPage, List.foldl_cons, List.foldl_nil]
    rw [runTaskSeq_cursor now nsOF tOF sfF ufF st x (hu x (by simp))]
    rfl
  | x :: y :: rest, st, _, hu => by
    have ih := runPage_cursor now nsOF tOF sfF ufF (y :: rest)
      (runTaskSeq now nsOF tOF sfF ufF st x) (by simp)
      (fun d hd => hu d (List.mem_cons_of_mem x hd))
    simp only [runPage, List.foldl_cons] at ih ⊢
    rw [List.getLast?_cons_cons]
    exact ih

theorem mem_of_getLast?_eq {α : Type} (l : List α) (a : α) (h : l.getLast? = some a) :
    a ∈ l := by
  obtain ⟨hne, rfl⟩ := List.mem_getLast?_eq_getLast (show a ∈ l.getLast? by simp [h])
  exact List.getLast_mem hne

theorem le_getLast_of_sorted (f : DomainInfoM → Nat) :
    ∀ (l : List DomainInfoM), (l.map f).Sorted (· ≤ ·) →
      ∀ d ∈ l, ∀ m, l.getLast? = some m → f d ≤ f m
  | [], _, _, hd, _, _ => absurd hd (List.not_mem_nil _)
  | x :: xs, hs, d, hd, m, hm => by
    rw [List.map_cons, List.sorted_cons] at hs
    cases xs with
    | nil =>
      have hdx : d = x := by simpa using hd
      have hmx : x = m := by simpa using hm
      rw [hdx, ← hmx]
    | cons y ys =>
      have hm2 : (y :: ys).getLast? = some m := by
        rw [List.getLast?_cons_cons] at hm
        exact hm
      rcases List.mem_cons.mp hd with hdx | hdtail
      · subst hdx
        exact hs.1 (f m) (List.mem_map_of_mem f (mem_of_getLast?_eq _ m hm2))
      · exact le_getLast_of_sorted f (y :: ys) hs.2 d hdtail m hm2

end Query

/-- C8: after a page completes with every cursor write succeeding, under
single-worker execution (tasks run in dispatch order, which the page
query's ORDER BY id makes ascending) the persisted cursor equals the
highest domain id of the page; under concurrent execution — modelled as
the page running in an arbitrary permutation of dispatch order, the
final cursor being the last task's write — it equals some domain id of
the page. -/
theorem c8_cursor_after_page (now : Nat) (nsOF : Nat → String → Query.NSOutcome)
    (tOF : Nat → String → String → Query.XchgResult) (sfF : Nat → String → Bool)
    (ufF : Nat → Bool) (st : DBState) (page : List Query.DomainInfoM)
    (hne : page ≠ [])
    (hsorted : (page.map (fun d => d.id)).Sorted (· ≤ ·))
    (hupd : ∀ d ∈ page, ufF d.id = true) :
    (∃ m, (Query.runPage now nsOF tOF sfF ufF st page).last_domain_id = some m
      ∧ m ∈ page.map (fun d => d.id) ∧ ∀ i ∈ page.map (fun d => d.id), i ≤ m)
    ∧ (∀ order : List Query.DomainInfoM, order.Perm page →
        ∃ m2, (Query.runPage now nsOF tOF sfF ufF st order).last_domain_id = some m2
          ∧ m2 ∈ page.map (fun d => d.id)) := by
  constructor
  · obtain ⟨last, hlast⟩ : ∃ a, page.getLast? = some a :=
      ⟨page.getLast hne, List.getLast?_eq_getLast page hne⟩
    refine ⟨last.id, ?_, ?_, ?_⟩
    · rw [Query.runPage_cursor now nsOF tOF sfF ufF page st hne hupd, hlast]
      rfl
    · exact List.mem_map_of_mem _ (Query.mem_of_getLast?_eq page last hlast)
    · intro i hi
      obtain ⟨d, hd, rfl⟩ := List.mem_map.mp hi
      exact Query.le_getLast_of_sorted _ page hsorted d hd last hlast
  · intro order hperm
    have hone : order ≠ [] := by
      intro h
      subst h
      exact hne (List.Perm.eq_nil hperm.symm)
    obtain ⟨last2, hlast2⟩ : ∃ a, order.getLast? = some a :=
      ⟨order.getLast hone, List.getLast?_eq_getLast order hone⟩
    refine ⟨last2.id, ?_, ?_⟩
    · rw [Query.runPage_cursor now nsOF tOF sfF ufF order st hone
        (fun d hd => hupd d (hperm.mem_iff.mp hd)), hlast2]
      rfl
    · exact List.mem_map_of_mem _
        (hperm.mem_iff.mp (Query.mem_of_getLast?_eq order last2 hlast2))

/-- C8 witness: the theorem applied to a concrete two-domain page in
ascending id order; the persisted cursor ends at the higher id, 2. -/
theorem c8_witness :
    exPage ≠ [] ∧ (exPage.map (fun d => d.id)).Sorted (· ≤ ·) ∧
    (Query.runPage 3 (fun _ => failNsO) (fun _ => failTO) (fun _ _ => true)
      (fun _ => true) emptyDB exPage).last_domain_id = some 2 := by
  refine ⟨by decide, by decide, ?_⟩
  obtain ⟨m, hm, hmem, hmax⟩ := (c8_cursor_after_page 3 (fun _ => failNsO)
    (fun _ => failTO) (fun _ _ => true) (fun _ => true) emptyDB exPage
    (by decide) (by decide) (fun d _ => rfl)).1
  have hmem2 : m ∈ ([1, 2] : List Nat) := by
    have : exPage.map (fun d => d.id) = [1, 2] := rfl
    rw [this] at hmem
    exact hmem
  have h2 : (2 : Nat) ≤ m := by
    apply hmax
    show (2 : Nat) ∈ exPage.map (fun d => d.id)
    decide
  have hm2 : m = 2 := by
    rcases List.mem_cons.mp hmem2 with h | h
    · omega
    · simpa using h
  rw [hm2] at hm
  exact hm

namespace Czds

theorem nsEntriesOf_append (l1 l2 : List ZRecord) :
    nsEntriesOf (l1 ++ l2) = nsEntriesOf l1 ++ nsEntriesOf l2 :=
  List.filterMap_append l1 l2 nsEntryOf

theorem flushIfFull_ok (tld : String) (k : Nat) (st : ParseState) (h : stateOk tld st) :
    stateOk tld (flushIfFull k st) := by
  unfold flushIfFull
  split
  · refine ⟨rfl, by simp, ?_⟩
    intro b hb
    rcases List.mem_append.mp hb with hb | hb
    · exact h.2.2 b hb
    · have hb2 : b = ⟨st.pending, st.pendingNS⟩ := by simpa using hb
      subst hb2
      exact ⟨h.1, h.2.1⟩
  · exact h

theorem step_ok (tld : String) (k : Nat) (st : ParseState) (rr : RawRR)
    (hfq : stripDot rr.name = tld → rr.name = tld ++ ".")
    (h : stateOk tld st) : stateOk tld (step tld k st rr) := by
  by_cases h1 : rr.name = tld ++ "."
  · simp only [step, if_pos h1]
    exact h
  · simp only [step, if_neg h1]
    by_cases h2 : stripDot rr.name = ""
    · simp only [if_pos h2]
      exact h
    · simp only [if_neg h2]
      by_cases h3 : rr.rtype ∉ validRecordTypes
      · simp only [if_pos h3]
        exact h
      · simp only [if_neg h3]
        have hpend : ∀ (o : Option String), ∀ r ∈ st.pending ++
            [(⟨stripDot rr.name, rr.rtype, rr.text, rr.ttl, tld, "CZDS", o⟩ : ZRecord)],
            dOk tld r := by
          intro o r hr
          rcases List.mem_append.mp hr with hr | hr
          · exact h.2.1 r hr
          · have hr2 := List.mem_singleton.mp hr
            subst hr2
            exact ⟨h2, fun he => h1 (hfq he)⟩
        by_cases h4 : rr.rtype = "NS"
        · simp only [if_pos h4]
          cases ht : rr.nsTarget with
          | none =>
            apply flushIfFull_ok
            refine ⟨?_, hpend none, h.2.2⟩
            rw [nsEntriesOf_append, h.1]
            simp [nsEntriesOf, nsEntryOf, ht]
          | some t =>
            by_cases h5 : stripDot t = ""
            · simp only [if_pos h5]
              refine ⟨?_, hpend (some t), h.2.2⟩
              rw [nsEntriesOf_append, h.1]
              simp [nsEntriesOf, nsEntryOf, ht, h5]
            · simp only [if_neg h5]
              apply flushIfFull_ok
              refine ⟨?_, hpend (some t), h.2.2⟩
              rw [nsEntriesOf_append, h.1]
              simp [nsEntriesOf, nsEntryOf, ht, h5, h4]
        · simp only [if_neg h4]
          apply flushIfFull_ok
          refine ⟨?_, hpend rr.nsTarget, h.2.2⟩
          rw [nsEntriesOf_append, h.1]
          simp [nsEntriesOf, nsEntryOf, h4]
          cases rr.nsTarget <;> simp [h4]

theorem foldl_ok (tld : String) (k : Nat) :
    ∀ (rrs : List RawRR) (st : ParseState),
      (∀ rr ∈ rrs, stripDot rr.name = tld → rr.name = tld ++ ".") →
      stateOk tld st → stateOk tld (rrs.foldl (step tld k) st)
  | [], _, _, h => h
  | rr :: rrs, st, hfq, h => by
    rw [List.foldl_cons]
    exact foldl_ok tld k rrs (step tld k st rr)
      (fun r hr => hfq r (List.mem_cons_of_mem rr hr))
      (step_ok tld k st rr (hfq rr (List.mem_cons_self rr rrs)) h)

theorem parseZoneFile_batches_ok (tld : String) (k : Nat) (rrs : List RawRR)
    (perr : Bool) (hfq : ∀ rr ∈ rrs, stripDot rr.name = tld → rr.name = tld ++ ".") :
    ∀ b ∈ (parseZoneFile tld k rrs perr).1, batchOk tld b := by
  have h := foldl_ok tld k rrs ⟨[], [], []⟩ hfq ⟨rfl, by simp, by simp⟩
  intro b hb
  unfold parseZoneFile at hb
  rcases perr with _ | _
  · simp only [Bool.false_eq_true, if_false] at hb
    by_cases hp : (rrs.foldl (step tld k) ⟨[], [], []⟩).pending = []
    · rw [if_pos hp] at hb
      exact h.2.2 b hb
    · rw [if_neg hp] at hb
      rcases List.mem_append.mp hb with hb | hb
      · exact h.2.2 b hb
      · have hb2 : b = ⟨(rrs.foldl (step tld k) ⟨[], [], []⟩).pending,
          (rrs.foldl (step tld k) ⟨[], [], []⟩).pendingNS⟩ := by simpa using hb
        subst hb2
        exact ⟨h.1, h.2.1⟩
  · simp only [if_true] at hb
    exact h.2.2 b hb

end Czds

/-- C5 counterexample: a zone whose only entry is an NS record with the
root label as target.  The record is delivered in the batch (it is
appended before the target check, czds_to_db.go:63-77), but its target
strips to the empty hostname, so no map entry is ever added — the
record's owner is not a key of the batch's nameserver map. -/
theorem c5_counterexample : ¬ nsKeyClaimAt "ex" 10 [exRootNS] false := by
  unfold nsKeyClaimAt
  decide

/-- C5 (amended): in every delivered batch, the nameserver map equals
exactly the batch records' NS entries — per owner, its NS targets in
document order, trailing separators stripped, empty targets excluded —
so an NS record's stripped owner is a key of the map whenever at least
one of its targets strips to a non-empty hostname (an NS record all of
whose targets strip empty contributes no key); owners equal to the TLD
apex or empty after stripping appear in neither the batch nor the map.
The hypothesis states that owner names are fully qualified, as the zone
parser guarantees. -/
theorem c5_batch_nameserver_map (tld : String) (k : Nat) (rrs : List Czds.RawRR)
    (perr : Bool)
    (hfq : ∀ rr ∈ rrs, stripDot rr.name = tld → rr.name = tld ++ ".") :
    ∀ b ∈ (Czds.parseZoneFile tld k rrs perr).1,
      b.nameservers = Czds.nsEntriesOf b.records
      ∧ (∀ r ∈ b.records, r.record_type = "NS" → ∀ t, r.nsTarget = some t →
          stripDot t ≠ "" → r.domain_name ∈ b.nameservers.map Prod.fst)
      ∧ (∀ r ∈ b.records, r.domain_name ≠ "" ∧ r.domain_name ≠ tld)
      ∧ (∀ p ∈ b.nameservers, p.1 ≠ "" ∧ p.1 ≠ tld) := by
  intro b hb
  have hbo := Czds.parseZoneFile_batches_ok tld k rrs perr hfq b hb
  refine ⟨hbo.1, ?_, hbo.2, ?_⟩
  · intro r hr hns t ht hne
    rw [hbo.1]
    apply List.mem_map.mpr
    refine ⟨(r.domain_name, stripDot t), ?_, rfl⟩
    apply List.mem_filterMap.mpr
    exact ⟨r, hr, by simp [Czds.nsEntryOf, ht, hns, hne]⟩
  · intro p hp
    rw [hbo.1] at hp
    obtain ⟨r, hr, hre⟩ := List.mem_filterMap.mp hp
    have hd := hbo.2 r hr
    unfold Czds.nsEntryOf at hre
    split at hre
    · split at hre
      · have hp1 : p.1 = r.domain_name := (congrArg Prod.fst (Option.some.inj hre)).symm
        rw [hp1]
        exact hd
      · exact absurd hre (by simp)
    · exact absurd hre (by simp)

/-- C5 witness: the amended theorem at a concrete two-record zone under
TLD `ex`. -/
theorem c5_witness :
    (∀ rr ∈ exZone, stripDot rr.name = "ex" → rr.name = "ex" ++ ".") ∧
    (∀ b ∈ (Czds.parseZoneFile "ex" 2 exZone false).1,
      b.nameservers = Czds.nsEntriesOf b.records
      ∧ (∀ r ∈ b.records, r.record_type = "NS" → ∀ t, r.nsTarget = some t →
          stripDot t ≠ "" → r.domain_name ∈ b.nameservers.map Prod.fst)
      ∧ (∀ r ∈ b.records, r.domain_name ≠ "" ∧ r.domain_name ≠ "ex")
      ∧ (∀ p ∈ b.nameservers, p.1 ≠ "" ∧ p.1 ≠ "ex")) :=
  ⟨by decide, c5_batch_nameserver_map "ex" 2 exZone false (by decide)⟩

namespace Czds

theorem updateFirst_none (name tld2 : String) (ns : List String) (now : Nat) :
    ∀ l : List (Nat × DomainRow), updateFirst name tld2 ns now l = none →
      l.find? (fun p => decide (p.2.domain_name = name ∧ p.2.tld = tld2)) = none
  | [], _ => rfl
  | p :: rest, h => by
    unfold updateFirst at h
    by_cases hc : p.2.domain_name = name ∧ p.2.tld = tld2
    · rw [if_pos hc] at h
      exact absurd h (by simp)
    · rw [if_neg hc] at h
      cases hrest : updateFirst name tld2 ns now rest with
      | some q => rw [hrest] at h; exact absurd h (by simp)
      | none =>
        rw [List.find?_cons_of_neg rest (by simpa using hc)]
        exact updateFirst_none name tld2 ns now rest hrest

theorem updateFirst_some_lookup (name tld2 : String) (ns : List String) (now : Nat) :
    ∀ (l ds : List (Nat × DomainRow)) (i : Nat),
      updateFirst name tld2 ns now l = some (ds, i) →
      ds.find? (fun p => decide (p.2.domain_name = name ∧ p.2.tld = tld2))
        = some (i, ⟨name, tld2, ns, now⟩)
  | [], _, _, h => by simp [updateFirst] at h
  | p :: rest, ds, i, h => by
    unfold updateFirst at h
    by_cases hc : p.2.domain_name = name ∧ p.2.tld = tld2
    · rw [if_pos hc] at h
      obtain ⟨hds, hi⟩ := Prod.mk.injEq .. ▸ Option.some.inj h
      subst hds
      subst hi
      rw [List.find?_cons_of_pos rest (by simp)]
    · rw [if_neg hc] at h
      cases hrest : updateFirst name tld2 ns now rest with
      | none => rw [hrest] at h; exact absurd h (by simp)
      | some q =>
        rw [hrest] at h
        obtain ⟨hds, hi⟩ := Prod.mk.injEq .. ▸ Option.some.inj h
        subst hds
        subst hi
        rw [List.find?_cons_of_neg q.1 (by simpa using hc)]
        exact updateFirst_some_lookup name tld2 ns now rest q.1 q.2 hrest

theorem updateFirst_some_lookup_other (name tld2 n2 t2 : String) (ns : List String)
    (now : Nat) (hne : ¬(n2 = name ∧ t2 = tld2)) :
    ∀ (l ds : List (Nat × DomainRow)) (i : Nat),
      updateFirst name tld2 ns now l = some (ds, i) →
      ds.find? (fun p => decide (p.2.domain_name = n2 ∧ p.2.tld = t2))
        = l.find? (fun p => decide (p.2.domain_name = n2 ∧ p.2.tld = t2))
  | [], _, _, h => by simp [updateFirst] at h
  | p :: rest, ds, i, h => by
    unfold updateFirst at h
    by_cases hc : p.2.domain_name = name ∧ p.2.tld = tld2
    · rw [if_pos hc] at h
      obtain ⟨hds, hi⟩ := Prod.mk.injEq .. ▸ Option.some.inj h
      subst hds
      subst hi
      have hp2 : ¬(p.2.domain_name = n2 ∧ p.2.tld = t2) := by
        rw [hc.1, hc.2]
        exact fun hx => hne ⟨hx.1.symm, hx.2.symm⟩
      have hnew : ¬(name = n2 ∧ tld2 = t2) := fun hx => hne ⟨hx.1.symm, hx.2.symm⟩
      rw [List.find?_cons_of_neg rest (by simpa using hnew),
        List.find?_cons_of_neg rest (by simpa using hp2)]
    · rw [if_neg hc] at h
      cases hrest : updateFirst name tld2 ns now rest with
      | none => rw [hrest] at h; exact absurd h (by simp)
      | some q =>
        rw [hrest] at h
        obtain ⟨hds, hi⟩ := Prod.mk.injEq .. ▸ Option.some.inj h
        subst hds
        subst hi
        by_cases hp : p.2.domain_name = n2 ∧ p.2.tld = t2
        · rw [List.find?_cons_of_pos q.1 (by simpa using hp),
            List.find?_cons_of_pos rest (by simpa using hp)]
        · rw [List.find?_cons_of_neg q.1 (by simpa using hp),
            List.find?_cons_of_neg rest (by simpa using hp)]
          exact updateFirst_some_lookup_other name tld2 n2 t2 ns now hne rest q.1 q.2 hrest

end Czds

namespace Czds

theorem nsStored_congr (s1 s2 : DBState) (h : s1.domains = s2.domains) (n t : String) :
    nsStored s1 n t = nsStored s2 n t := by
  unfold nsStored lookupDomain
  rw [h]

theorem lookupDomain_upsert_same (st : DBState) (n t : String) (ns : List String)
    (now : Nat) :
    lookupDomain (upsertDomain st n t ns now).1 n t
      = some ((upsertDomain st n t ns now).2, ⟨n, t, ns, now⟩) := by
  unfold upsertDomain lookupDomain
  cases h : updateFirst n t ns now st.domains with
  | some q =>
    simpa using updateFirst_some_lookup n t ns now st.domains q.1 q.2 (by simpa using h)
  | none =>
    simp only
    rw [List.find?_append, updateFirst_none n t ns now st.domains h]
    rw [List.find?_cons_of_pos [] (by simp)]
    rfl

theorem lookupDomain_upsert_other (st : DBState) (n t n2 t2 : String) (ns : List String)
    (now : Nat) (hne : ¬(n2 = n ∧ t2 = t)) :
    lookupDomain (upsertDomain st n t ns now).1 n2 t2 = lookupDomain st n2 t2 := by
  unfold upsertDomain lookupDomain
  cases h : updateFirst n t ns now st.domains with
  | some q =>
    simpa using updateFirst_some_lookup_other n t n2 t2 ns now hne st.domains q.1 q.2
      (by simpa using h)
  | none =>
    simp only
    rw [List.find?_append]
    have hnew : ¬(n = n2 ∧ t = t2) := fun hx => hne ⟨hx.1.symm, hx.2.symm⟩
    rw [List.find?_cons_of_neg [] (by simpa using hnew)]
    simp [List.find?_nil]

theorem nsStored_upsert_same (st : DBState) (n t : String) (ns : List String) (now : Nat) :
    nsStored (upsertDomain st n t ns now).1 n t = some ns := by
  unfold nsStored
  rw [lookupDomain_upsert_same]
  rfl

theorem nsStored_upsert_other (st : DBState) (n t n2 t2 : String) (ns : List String)
    (now : Nat) (hne : ¬(n2 = n ∧ t2 = t)) :
    nsStored (upsertDomain st n t ns now).1 n2 t2 = nsStored st n2 t2 := by
  unfold nsStored
  rw [lookupDomain_upsert_other st n t n2 t2 ns now hne]

theorem storeDomainsPass_mem (tld2 : String) (now : Nat) (nsmap : List (String × String)) :
    ∀ (recs : List ZRecord) (st : DBState) (ids : List (String × Nat)),
      (∀ q ∈ ids, nsStored st q.1 tld2 = some (nsValueAssoc nsmap q.1)) →
      ∀ d, (d ∈ ids.map Prod.fst ∨ d ∈ recs.map (fun r => r.domain_name)) →
        nsStored (storeDomainsPass tld2 now nsmap st ids recs).1 d tld2
          = some (nsValueAssoc nsmap d)
  | [], st, ids, hids, d, hd => by
    rcases hd with hd | hd
    · obtain ⟨q, hq, rfl⟩ := List.mem_map.mp hd
      exact hids q hq
    · simp at hd
  | r :: rest, st, ids, hids, d, hd => by
    unfold storeDomainsPass
    by_cases hmem : r.domain_name ∈ ids.map Prod.fst
    · rw [if_pos hmem]
      apply storeDomainsPass_mem tld2 now nsmap rest st ids hids d
      rcases hd with hd | hd
      · exact Or.inl hd
      · rw [List.map_cons] at hd
        rcases List.mem_cons.mp hd with hdr | hdr
        · exact Or.inl (hdr ▸ hmem)
        · exact Or.inr hdr
    · rw [if_neg hmem]
      apply storeDomainsPass_mem tld2 now nsmap rest _ _ ?_ d ?_
      · intro q hq
        rcases List.mem_append.mp hq with hq | hq
        · have hqne : ¬(q.1 = r.domain_name ∧ tld2 = tld2) := by
            intro hx
            exact hmem (hx.1 ▸ List.mem_map_of_mem Prod.fst hq)
          rw [nsStored_upsert_other st r.domain_name tld2 q.1 tld2 _ now hqne]
          exact hids q hq
        · have hq2 : q = (r.domain_name,
              (upsertDomain st r.domain_name tld2 (nsValueAssoc nsmap r.domain_name) now).2) := by
            simpa using hq
          subst hq2
          exact nsStored_upsert_same st r.domain_name tld2 _ now
      · rcases hd with hd | hd
        · exact Or.inl (by simp [hd])
        · rw [List.map_cons] at hd
          rcases List.mem_cons.mp hd with hdr | hdr
          · exact Or.inl (by simp [hdr])
          · exact Or.inr hdr

theorem storeDomainsPass_not_mem (tld2 : String) (now : Nat)
    (nsmap : List (String × String)) :
    ∀ (recs : List ZRecord) (st : DBState) (ids : List (String × Nat)) (d : String),
      d ∉ recs.map (fun r => r.domain_name) →
      nsStored (storeDomainsPass tld2 now nsmap st ids recs).1 d tld2
        = nsStored st d tld2
  | [], _, _, _, _ => rfl
  | r :: rest, st, ids, d, hd => by
    have hdr : d ≠ r.domain_name := fun hx => hd (by simp [hx])
    have hdrest : d ∉ rest.map (fun r => r.domain_name) := fun hx => hd (by simp [hx])
    unfold storeDomainsPass
    by_cases hmem : r.domain_name ∈ ids.map Prod.fst
    · rw [if_pos hmem]
      exact storeDomainsPass_not_mem tld2 now nsmap rest st ids d hdrest
    · rw [if_neg hmem]
      rw [storeDomainsPass_not_mem tld2 now nsmap rest _ _ d hdrest]
      exact nsStored_upsert_other st r.domain_name tld2 d tld2 _ now
        (fun hx => hdr hx.1)

theorem storeRecordsPass_domains (now : Nat) (ids : List (String × Nat)) :
    ∀ (recs : List ZRecord) (st : DBState),
      (storeRecordsPass now ids st recs).domains = st.domains
  | [], _ => rfl
  | r :: rest, st => by
    unfold storeRecordsPass
    rw [List.foldl_cons]
    exact storeRecordsPass_domains now ids rest _

theorem storeRecords_ns_mem (st : DBState) (recs : List ZRecord)
    (nsmap : List (String × String)) (tld2 : String) (now : Nat) (d : String)
    (hd : d ∈ recs.map (fun r => r.domain_name)) :
    nsStored (storeRecords st recs nsmap tld2 now) d tld2
      = some (nsValueAssoc nsmap d) := by
  unfold storeRecords
  rw [nsStored_congr _ _
    (storeRecordsPass_domains now (storeDomainsPass tld2 now nsmap st [] recs).2 recs
      (storeDomainsPass tld2 now nsmap st [] recs).1)]
  exact storeDomainsPass_mem tld2 now nsmap recs st [] (by simp) d (Or.inr hd)

theorem storeRecords_ns_not_mem (st : DBState) (recs : List ZRecord)
    (nsmap : List (String × String)) (tld2 : String) (now : Nat) (d : String)
    (hd : d ∉ recs.map (fun r => r.domain_name)) :
    nsStored (storeRecords st recs nsmap tld2 now) d tld2 = nsStored st d tld2 := by
  unfold storeRecords
  rw [nsStored_congr _ _
    (storeRecordsPass_domains now (storeDomainsPass tld2 now nsmap st [] recs).2 recs
      (storeDomainsPass tld2 now nsmap st [] recs).1)]
  exact storeDomainsPass_not_mem tld2 now nsmap recs st [] d hd

theorem ingestBatches_ns (tld2 : String) (now : Nat) (d : String) :
    ∀ (batches : List Batch) (st : DBState),
      nsStored (ingestBatches st batches tld2 now) d tld2 = expectedNS st batches tld2 d
  | [], st => by
    simp [ingestBatches, expectedNS, lastBatchContaining, nsStored]
  | b :: bs, st => by
    have ih := ingestBatches_ns tld2 now d bs (storeRecords st b.records b.nameservers tld2 now)
    unfold ingestBatches at ih ⊢
    rw [List.foldl_cons]
    unfold expectedNS at ih ⊢
    unfold lastBatchContaining at ih ⊢
    rw [List.reverse_cons, List.find?_append]
    cases hfind : bs.reverse.find?
        (fun b2 => decide (d ∈ b2.records.map (fun r => r.domain_name))) with
    | some b2 =>
      rw [hfind] at ih
      rw [Option.or]
      exact ih
    | none =>
      rw [hfind] at ih
      rw [Option.none_or]
      by_cases hpred : d ∈ b.records.map (fun r => r.domain_name)
      · rw [List.find?_cons_of_pos [] (by simpa using hpred)]
        rw [ih]
        exact storeRecords_ns_mem st b.records b.nameservers tld2 now d hpred
      · rw [List.find?_cons_of_neg [] (by simpa using hpred), List.find?_nil]
        rw [ih]
        exact storeRecords_ns_not_mem st b.records b.nameservers tld2 now d hpred

end Czds

/-- C9: each batch transaction of the ingestion engine replaces the stored
nameserver list of every domain owning a record in the batch with exactly
that batch's accumulated NS targets for it — the empty list when the
batch map has no entry for it — so after a file's batches are ingested a
domain's stored nameserver list equals the targets carried by the last
batch containing one of its records (its prior value if no batch did),
and a later batch without NS records for the domain overwrites the list
to empty. -/
theorem c9_last_batch_overwrites (tld2 : String) (now : Nat) (d : String)
    (st : DBState) (batches : List Czds.Batch) (recs : List Czds.ZRecord)
    (nsmap : List (String × String)) :
    (d ∈ recs.map (fun r => r.domain_name) →
      Czds.nsStored (Czds.storeRecords st recs nsmap tld2 now) d tld2
        = some (Czds.nsValueAssoc nsmap d))
    ∧ Czds.nsStored (Czds.ingestBatches st batches tld2 now) d tld2
        = Czds.expectedNS st batches tld2 d :=
  ⟨fun hd => Czds.storeRecords_ns_mem st recs nsmap tld2 now d hd,
   Czds.ingestBatches_ns tld2 now d batches st⟩

/-- C9 witness: ingesting one batch stores the batch's NS target for the
owner; ingesting the two-batch file whose second batch has no NS entry
for the owner overwrites the stored list to empty. -/
theorem c9_witness :
    ("foo.ex" ∈ [exZRecNS].map (fun r => r.domain_name)) ∧
    Czds.nsStored (Czds.storeRecords emptyDB [exZRecNS] [("foo.ex", "ns1.ex")] "ex" 7)
      "foo.ex" "ex" = some ["ns1.ex"] ∧
    Czds.nsStored (Czds.ingestBatches emptyDB exBatches "ex" 7) "foo.ex" "ex"
      = some [] := by
  refine ⟨by decide, ?_, ?_⟩
  · rw [(c9_last_batch_overwrites "ex" 7 "foo.ex" emptyDB exBatches [exZRecNS]
      [("foo.ex", "ns1.ex")]).1 (by decide)]
    decide
  · rw [(c9_last_batch_overwrites "ex" 7 "foo.ex" emptyDB exBatches [exZRecNS]
      [("foo.ex", "ns1.ex")]).2]
    decide
